import Mathlib

/-!
Formal model of the dynam_hikone dashboard (src/app.py).

The dashboard loads per-cabinet daily slot-machine records, derives date and
cabinet attributes, aggregates them into win-rate / payout metrics, and renders
tables and floor maps.  This file gives a shallow embedding of the data model
and of the computation paths of app.py (load_data derivations, the numeric
coercion loop, calculate_metrics, latest_machine_map / check_status, the
sidebar date filter, the tab5 coordinate merge and virtual-map fallback), and
proves the behavioural properties stated about them.

Naming: Python identifiers that Lean cannot spell (Japanese column names) are
romanised; each definition's doc comment names the app.py symbol it embeds.
-/

/-- Decimal digits of a natural number, least significant first, driven by
explicit fuel so that it reduces by kernel evaluation.  Agrees with
Mathlib's Nat.digits 10 whenever the fuel is at least the number. -/
def decDigitsRev : ℕ → ℕ → List ℕ
  | 0, _ => []
  | fuel+1, n => if n = 0 then [] else n % 10 :: decDigitsRev fuel (n / 10)

theorem decDigitsRev_eq_digits (fuel n : ℕ) (h : n ≤ fuel) :
    decDigitsRev fuel n = Nat.digits 10 n := by
  induction fuel generalizing n with
  | zero => interval_cases n; simp [decDigitsRev]
  | succ f ih =>
    rcases Nat.eq_zero_or_pos n with rfl | hn
    · simp [decDigitsRev]
    · rw [decDigitsRev, if_neg hn.ne', Nat.digits_def' (by norm_num) hn, ih]
      omega

/-- Embeds Python str(n) for a natural number: its decimal digit characters,
most significant first ("0" for 0). -/
def pyStr (n : ℕ) : List Char :=
  if n = 0 then ['0'] else ((decDigitsRev n n).map Nat.digitChar).reverse

/-- Embeds Python str(n) for an integer (a "-" sign precedes the digits of a
negative number). -/
def pyStrInt (n : ℤ) : List Char :=
  if n < 0 then '-' :: pyStr n.natAbs else pyStr n.toNat

theorem pyStr_reverse_eq (n : ℕ) (hn : n ≠ 0) :
    (pyStr n).reverse = (Nat.digits 10 n).map Nat.digitChar := by
  rw [pyStr, if_neg hn, List.reverse_reverse, decDigitsRev_eq_digits n n le_rfl]

/-- The spec's "the concatenation of the month and day digits has exactly one
distinct character" (this clause appears in the spec only; app.py line 94 does
not implement it). -/
def oneDistinctChar (l : List Char) : Prop :=
  l ≠ [] ∧ ∀ c ∈ l, ∀ c' ∈ l, c = c'

instance (l : List Char) : Decidable (oneDistinctChar l) := by
  unfold oneDistinctChar; infer_instance

/-- Embeds app.py line 94:
df["is_Zorome"] = (df["DayNum"].isin([11, 22])) | (df["Month"] == df["DayNum"]).
Arguments are the Month and DayNum columns of one row. -/
def is_Zorome (month dayNum : ℕ) : Bool :=
  (dayNum = 11 || dayNum = 22) || (month = dayNum)

/-- Embeds get_machine_zorome (app.py lines 98-102): the last two characters of
str(num) when they are equal, the tag "通常" ("normal") otherwise. -/
def get_machine_zorome (num : ℤ) : String :=
  match (pyStrInt num).reverse with
  | c1 :: c2 :: _ => if c1 = c2 then String.mk [c2, c1] else "通常"
  | _ => "通常"

theorem digitChar_inj_lt10 :
    ∀ d < 10, ∀ e < 10, Nat.digitChar d = Nat.digitChar e → d = e := by decide

/-- C2 counterexample input: month = 11, day = 1.  The code's is_Zorome is
False there, while the claim's three-rule definition demands True because
"111" has exactly one distinct character. -/
theorem c2_counterexample :
    is_Zorome 11 1 = false ∧
    (1 = 11 ∨ 1 = 22 ∨ 11 = 1 ∨ oneDistinctChar (pyStr 11 ++ pyStr 1)) := by
  refine ⟨by decide, Or.inr (Or.inr (Or.inr ?_))⟩
  decide

/-- C2 (amended): the is_Zorome flag of a record is True if and only if the day
of month is 11 or 22 or the month equals the day.  (The claim's additional
"concatenation of month and day digits has one distinct character" clause is
not implemented by app.py line 94.) -/
theorem c2_zorome_flag (month dayNum : ℕ) :
    is_Zorome month dayNum = true ↔ (dayNum = 11 ∨ dayNum = 22 ∨ month = dayNum) := by
  simp [is_Zorome, or_assoc]

/-- C2 witness: the amended rule applied at month = 7, day = 7. -/
theorem c2_zorome_flag_witness : is_Zorome 7 7 = true :=
  (c2_zorome_flag 7 7).mpr (Or.inr (Or.inr rfl))

/-- C7: for every non-negative integer cabinet number, get_machine_zorome
returns the two-character decimal string of the last two digits when the ones
and tens digits agree (which requires the number to have at least two digits),
and the literal tag "通常" ("normal") otherwise; in particular 122 gives "22"
and 123 gives "通常".  The function is a total Lean function, so it never
fails. -/
theorem c7_machine_zorome_type (n : ℕ) :
    (10 ≤ n → n % 10 = n / 10 % 10 →
      get_machine_zorome (n : ℤ) =
        String.mk [Nat.digitChar (n / 10 % 10), Nat.digitChar (n % 10)]) ∧
    (10 ≤ n → n % 10 ≠ n / 10 % 10 → get_machine_zorome (n : ℤ) = "通常") ∧
    (n < 10 → get_machine_zorome (n : ℤ) = "通常") ∧
    get_machine_zorome 122 = "22" ∧ get_machine_zorome 123 = "通常" := by
  have hrev : (pyStrInt (n : ℤ)).reverse = (pyStr n).reverse := by
    rw [pyStrInt, if_neg (not_lt.mpr (Int.natCast_nonneg n)), Int.toNat_natCast]
  refine ⟨?_, ?_, ?_, by decide, by decide⟩
  · intro h10 heq
    have hn : n ≠ 0 := by omega
    have hq : n / 10 ≠ 0 := by omega
    rw [get_machine_zorome, hrev, pyStr_reverse_eq n hn,
      Nat.digits_def' (b := 10) (by norm_num) (Nat.pos_of_ne_zero hn),
      Nat.digits_def' (b := 10) (by norm_num) (Nat.pos_of_ne_zero hq)]
    simp only [List.map_cons]
    rw [if_pos (by rw [heq])]
  · intro h10 hne
    have hn : n ≠ 0 := by omega
    have hq : n / 10 ≠ 0 := by omega
    rw [get_machine_zorome, hrev, pyStr_reverse_eq n hn,
      Nat.digits_def' (b := 10) (by norm_num) (Nat.pos_of_ne_zero hn),
      Nat.digits_def' (b := 10) (by norm_num) (Nat.pos_of_ne_zero hq)]
    simp only [List.map_cons]
    rw [if_neg ?_]
    intro hc
    exact hne (digitChar_inj_lt10 _ (Nat.mod_lt _ (by norm_num)) _
      (Nat.mod_lt _ (by norm_num)) hc)
  · intro hlt
    rcases Nat.eq_zero_or_pos n with rfl | hn
    · decide
    · have hq : n / 10 = 0 := Nat.div_eq_of_lt hlt
      rw [get_machine_zorome, hrev, pyStr_reverse_eq n hn.ne',
        Nat.digits_def' (b := 10) (by norm_num) hn, hq]
      simp

/-- C7 witness: the general rule applied at the concrete inputs 122 and 123. -/
theorem c7_machine_zorome_type_witness :
    get_machine_zorome (122 : ℤ) = String.mk [Nat.digitChar 2, Nat.digitChar 2] ∧
    get_machine_zorome (123 : ℤ) = "通常" :=
  ⟨(c7_machine_zorome_type 122).1 (by norm_num) (by norm_num),
   (c7_machine_zorome_type 123).2.1 (by norm_num) (by norm_num)⟩

/-- Embeds the three chained replacements of the numeric coercion loop
(app.py line 82): removing every comma, plus sign, and space character from
the cell text. -/
def cleanNumStr (s : String) : String :=
  String.mk (s.data.filter (fun c => ¬ (c = ',' ∨ c = '+' ∨ c = ' ')))

/-- Decimal value of a digit-character list, most significant first. -/
def digitsVal (l : List Char) : ℕ :=
  l.foldl (fun a c => 10 * a + (c.toNat - 48)) 0

/-- Model of pd.to_numeric(..., errors="coerce") on one cell (app.py line 83),
restricted to its integer fragment (the coerced columns are integer-valued):
an optional minus sign followed by a nonempty digit string parses to its
value, anything else yields none. -/
def toNumericOpt (s : String) : Option ℤ :=
  match s.data with
  | [] => none
  | c :: rest =>
    if c = '-' then
      if rest ≠ [] ∧ rest.all Char.isDigit then some (-(digitsVal rest : ℤ)) else none
    else
      if (c :: rest).all Char.isDigit then some ((digitsVal (c :: rest) : ℤ)) else none

/-- Embeds the full per-cell coercion of app.py lines 82-83: strip separators,
parse, and replace a failed parse by 0 (.fillna(0)). -/
def coerceNumeric (s : String) : ℤ :=
  (toNumericOpt (cleanNumStr s)).getD 0

theorem isDigit_ne_sep (c : Char) (h : c.isDigit = true) :
    ¬ (c = ',' ∨ c = '+' ∨ c = ' ') := by
  rintro (rfl | rfl | rfl) <;> simp at h

/-- C8: the numeric coercion is a total function: commas, plus signs and
spaces are stripped, a cell whose remaining characters are digits parses to
their decimal value, and a cell with no digit at all is coerced to 0 rather
than failing. -/
theorem c8_numeric_coercion (s : String) :
    ((∀ c ∈ s.data, c.isDigit = true ∨ c = ',' ∨ c = '+' ∨ c = ' ') →
      (∃ c ∈ s.data, c.isDigit = true) →
      coerceNumeric s = (digitsVal (s.data.filter Char.isDigit) : ℤ)) ∧
    ((∀ c ∈ s.data, c.isDigit = false) → coerceNumeric s = 0) := by
  constructor
  · intro hall hex
    have hfe : s.data.filter (fun c => ¬ (c = ',' ∨ c = '+' ∨ c = ' ')) =
        s.data.filter Char.isDigit := by
      apply List.filter_congr
      intro c hc
      rcases hall c hc with hd | hsep
      · simp [isDigit_ne_sep c hd, hd]
      · have : c.isDigit = false := by
          rcases hsep with rfl | rfl | rfl <;> decide
        simp [hsep, this]
    have hdata : (cleanNumStr s).data = s.data.filter Char.isDigit := by
      rw [cleanNumStr]; exact hfe
    obtain ⟨c0, hc0, hd0⟩ := hex
    have hmem : c0 ∈ s.data.filter Char.isDigit := List.mem_filter.mpr ⟨hc0, hd0⟩
    rw [coerceNumeric, toNumericOpt, hdata]
    rcases hL : s.data.filter Char.isDigit with _ | ⟨c, t⟩
    · rw [hL] at hmem; simp at hmem
    · have hcd : c.isDigit = true := by
        have : c ∈ s.data.filter Char.isDigit := by
          rw [hL]; exact List.mem_cons_self c t
        exact (List.mem_filter.mp this).2
      have hcne : ¬ (c = '-') := by rintro rfl; simp at hcd
      have htall : (c :: t).all Char.isDigit = true := by
        rw [← hL, List.all_eq_true]
        intro x hx; exact (List.mem_filter.mp hx).2
      simp [hcne, htall]
  · intro hnone
    have hsub : ∀ c ∈ (cleanNumStr s).data, c.isDigit = false := by
      intro c hc
      rw [cleanNumStr] at hc
      exact hnone c (List.mem_filter.mp hc).1
    rw [coerceNumeric, toNumericOpt]
    rcases hL : (cleanNumStr s).data with _ | ⟨c, t⟩
    · simp
    · have hct : ∀ x ∈ c :: t, x.isDigit = false := by rw [← hL]; exact hsub
      by_cases hc : c = '-'
      · subst hc
        rcases t with _ | ⟨c2, t2⟩
        · simp
        · have h2 := hct c2 (by simp)
          simp [h2]
      · have h2 := hct c (by simp)
        simp [hc, h2]

/-- C8 witness: stripping and fallback at the concrete inputs "1,234" and
"abc". -/
theorem c8_numeric_coercion_witness :
    coerceNumeric "1,234" = (digitsVal ("1,234".data.filter Char.isDigit) : ℤ) ∧
    coerceNumeric "abc" = 0 :=
  ⟨(c8_numeric_coercion "1,234").1 (by decide) (by decide),
   (c8_numeric_coercion "abc").2 (by decide)⟩

/-- One input row after load_data (app.py lines 39-108): cabinet number
(台番号, dai), model name (機種, kishu), date as a linearly ordered timestamp
(日付, hizuke), month and day of month (Month, DayNum), net payout
differential (総差枚, saman), and spin count (G数, gsu). -/
structure Record where
  dai : ℤ
  kishu : String
  hizuke : ℕ
  month : ℕ
  dayNum : ℕ
  saman : ℤ
  gsu : ℤ
deriving DecidableEq

/-- Embeds 末尾 (app.py line 93): the day-ending digit, DayNum mod 10. -/
def matsubi (r : Record) : ℕ := r.dayNum % 10

/-- The per-row is_Zorome flag (app.py line 94). -/
def zoromeFlag (r : Record) : Bool := is_Zorome r.month r.dayNum

/-- The rounding applied by pandas Series.round: round half to even
(IEEE-754 default used by numpy). -/
def roundHalfEven (q : ℚ) : ℤ :=
  if q - ⌊q⌋ < 1/2 then ⌊q⌋
  else if 1/2 < q - ⌊q⌋ then ⌊q⌋ + 1
  else if ⌊q⌋ % 2 = 0 then ⌊q⌋ else ⌊q⌋ + 1

/-- pandas .round(1): round to one decimal place. -/
def round1 (q : ℚ) : ℚ := (roundHalfEven (q * 10) : ℚ) / 10

theorem roundHalfEven_close (q : ℚ) : |(roundHalfEven q : ℚ) - q| ≤ 1/2 := by
  have h1 : (⌊q⌋ : ℚ) ≤ q := Int.floor_le q
  have h2 : q < ⌊q⌋ + 1 := Int.lt_floor_add_one q
  unfold roundHalfEven
  split_ifs with hlt hgt hev <;> rw [abs_le] <;> constructor <;> push_cast <;> linarith

theorem round1_close (q : ℚ) : |round1 q - q| ≤ 1/20 := by
  have h := roundHalfEven_close (q * 10)
  rw [round1]
  have heq : (roundHalfEven (q * 10) : ℚ) / 10 - q =
      ((roundHalfEven (q * 10) : ℚ) - q * 10) / 10 := by ring
  rw [heq, abs_div, abs_of_pos (by norm_num : (0:ℚ) < 10)]
  linarith

theorem round1_zero : round1 0 = 0 := by
  norm_num [round1, roundHalfEven]

/-- Embeds サンプル数 (app.py line 254): pandas count of the 総差枚 column of one
group; every cell is present after coercion, so it is the group size. -/
def sampleCount (g : List Record) : ℕ := g.length

/-- Embeds 勝数 (app.py line 255): the number of group rows with positive payout. -/
def winCount (g : List Record) : ℕ := (g.filter (fun r => 0 < r.saman)).length

/-- Embeds the 総差枚 aggregate (app.py line 256): summed payout of the group. -/
def totalSaman (g : List Record) : ℤ := (g.map (fun r => r.saman)).sum

/-- Embeds 総G数 (app.py line 257): summed spins of the group. -/
def totalG (g : List Record) : ℤ := (g.map (fun r => r.gsu)).sum

/-- Embeds 勝率 before .round(1) (app.py line 261): 勝数 / サンプル数 × 100. -/
def winRateRaw (g : List Record) : ℚ := (winCount g : ℚ) / (sampleCount g : ℚ) * 100

/-- Embeds 勝率 as stored (app.py line 261). -/
def winRate (g : List Record) : ℚ := round1 (winRateRaw g)

/-- Embeds 機械割 before .round(1) (app.py line 262): the lambda
(総G数×3 + 総差枚) / (総G数×3) × 100 when 総G数 > 0, else 0. -/
def kikaiwariRaw (g : List Record) : ℚ :=
  if 0 < totalG g then
    ((totalG g : ℚ) * 3 + (totalSaman g : ℚ)) / ((totalG g : ℚ) * 3) * 100
  else 0

/-- Embeds 機械割 as stored (app.py line 262). -/
def kikaiwari (g : List Record) : ℚ := round1 (kikaiwariRaw g)

/-- Embeds 平均差枚 before rounding (app.py lines 258, 263): the group mean of 総差枚,
with .fillna(0) for an empty group. -/
def avgSamanRaw (g : List Record) : ℚ :=
  if g.length = 0 then 0 else (totalSaman g : ℚ) / (g.length : ℚ)

/-- Embeds 平均差枚 as stored: .round(0).astype(int) (app.py line 263). -/
def avgSaman (g : List Record) : ℤ := roundHalfEven (avgSamanRaw g)

/-- Embeds 平均G数 before rounding (app.py lines 259, 264). -/
def avgGRaw (g : List Record) : ℚ :=
  if g.length = 0 then 0 else (totalG g : ℚ) / (g.length : ℚ)

/-- Embeds 平均G数 as stored: .round(0).astype(int) (app.py line 264). -/
def avgG (g : List Record) : ℤ := roundHalfEven (avgGRaw g)

/-- One output row of calculate_metrics. -/
structure AggRow (κ : Type) where
  key : κ
  sampleCount : ℕ
  winCount : ℕ
  totalSaman : ℤ
  totalG : ℤ
  avgSaman : ℤ
  avgG : ℤ
  winRate : ℚ
  kikaiwari : ℚ
deriving DecidableEq

/-- The aggregate row of one group. -/
def aggRow {κ : Type} (k : κ) (g : List Record) : AggRow κ :=
  ⟨k, sampleCount g, winCount g, totalSaman g, totalG g, avgSaman g, avgG g,
   winRate g, kikaiwari g⟩

/-- Embeds calculate_metrics (app.py lines 252-265): group the rows by the
key, one aggregate row per distinct key present. -/
def calculate_metrics {κ : Type} [DecidableEq κ] (rows : List Record)
    (key : Record → κ) : List (AggRow κ) :=
  ((rows.map key).dedup).map (fun k => aggRow k (rows.filter (fun r => key r = k)))

/-- The two-record example group of the spec: (spins 1000, payout 0) and
(spins 1000, payout 300). -/
def exampleGroup : List Record :=
  [⟨1001, "A", 1, 1, 1, 0, 1000⟩, ⟨1002, "A", 1, 1, 1, 300, 1000⟩]

/-- C1: in every aggregate row, the stored 機械割 is the one-decimal rounding
of (total spins × 3 + total payout) / (total spins × 3) × 100 when total
spins > 0, and is exactly 0 when total spins = 0 (a plain rational, never an
error); on the spec's two-record example group the stored value is exactly
105. -/
theorem c1_payout_percentage {κ : Type} [DecidableEq κ] (rows : List Record)
    (key : Record → κ) (row : AggRow κ) (hrow : row ∈ calculate_metrics rows key) :
    (0 < row.totalG →
      row.kikaiwari =
        round1 (((row.totalG : ℚ) * 3 + (row.totalSaman : ℚ)) /
          ((row.totalG : ℚ) * 3) * 100)) ∧
    (row.totalG = 0 → row.kikaiwari = 0) ∧
    kikaiwari exampleGroup = 105 := by
  obtain ⟨k, hk, rfl⟩ := List.mem_map.mp hrow
  simp only [calculate_metrics, aggRow]
  refine ⟨?_, ?_, ?_⟩
  · intro hpos
    rw [kikaiwari, kikaiwariRaw, if_pos hpos]
  · intro h0
    rw [kikaiwari, kikaiwariRaw, if_neg (by omega), round1_zero]
  · norm_num [exampleGroup, kikaiwari, kikaiwariRaw, totalG, totalSaman,
      round1, roundHalfEven]

/-- C1 witness: the rule applied to the example group aggregated under a
constant key. -/
theorem c1_payout_percentage_witness :
    0 < (aggRow (0 : ℤ) exampleGroup).totalG ∧
    (aggRow (0 : ℤ) exampleGroup).kikaiwari =
      round1 ((((aggRow (0 : ℤ) exampleGroup).totalG : ℚ) * 3 +
          ((aggRow (0 : ℤ) exampleGroup).totalSaman : ℚ)) /
        (((aggRow (0 : ℤ) exampleGroup).totalG : ℚ) * 3) * 100) := by
  have hmem : aggRow (0 : ℤ) exampleGroup ∈
      calculate_metrics exampleGroup (fun _ => (0 : ℤ)) := by
    simp [calculate_metrics, exampleGroup]
  have hpos : 0 < (aggRow (0 : ℤ) exampleGroup).totalG := by
    norm_num [aggRow, totalG, exampleGroup]
  exact ⟨hpos,
    (c1_payout_percentage exampleGroup (fun _ => (0 : ℤ)) _ hmem).1 hpos⟩

/-- C4: each aggregate row's sample count is the number of input rows in its
group, its win count is the number of group rows with payout > 0 (hence win
count ≤ sample count), and its stored win rate is the one-decimal rounding of
win count / sample count × 100. -/
theorem c4_group_counts {κ : Type} [DecidableEq κ] (rows : List Record)
    (key : Record → κ) (row : AggRow κ) (_hne : rows ≠ [])
    (hrow : row ∈ calculate_metrics rows key) :
    row.sampleCount = (rows.filter (fun r => key r = row.key)).length ∧
    row.winCount =
      ((rows.filter (fun r => key r = row.key)).filter (fun r => 0 < r.saman)).length ∧
    row.winCount ≤ row.sampleCount ∧
    row.winRate = round1 ((row.winCount : ℚ) / (row.sampleCount : ℚ) * 100) := by
  obtain ⟨k, hk, rfl⟩ := List.mem_map.mp hrow
  simp only [aggRow]
  exact ⟨rfl, rfl, List.length_filter_le _ _, rfl⟩

/-- C4 witness: the counts on the concrete example group. -/
theorem c4_group_counts_witness :
    (aggRow (0 : ℤ) exampleGroup).winCount ≤ (aggRow (0 : ℤ) exampleGroup).sampleCount ∧
    (aggRow (0 : ℤ) exampleGroup).sampleCount = 2 ∧
    (aggRow (0 : ℤ) exampleGroup).winCount = 1 := by
  have hmem : aggRow (0 : ℤ) exampleGroup ∈
      calculate_metrics exampleGroup (fun _ => (0 : ℤ)) := by
    simp [calculate_metrics, exampleGroup]
  refine ⟨(c4_group_counts exampleGroup (fun _ => (0 : ℤ)) _
      (by simp [exampleGroup]) hmem).2.2.1, ?_, ?_⟩ <;>
    norm_num [aggRow, sampleCount, winCount, exampleGroup]

/-- C6: in every aggregate row the stored win rate and payout percentage are
multiples of 1/10 lying within 1/20 of their unrounded values (one-decimal
rounding), and the stored mean payout and mean spins are integers lying
within 1/2 of the exact group means (nearest-integer rounding). -/
theorem c6_rounding {κ : Type} [DecidableEq κ] (rows : List Record)
    (key : Record → κ) (row : AggRow κ) (hrow : row ∈ calculate_metrics rows key) :
    (∃ z : ℤ, row.winRate = (z : ℚ) / 10) ∧
    |row.winRate - winRateRaw (rows.filter (fun r => key r = row.key))| ≤ 1/20 ∧
    (∃ z : ℤ, row.kikaiwari = (z : ℚ) / 10) ∧
    |row.kikaiwari - kikaiwariRaw (rows.filter (fun r => key r = row.key))| ≤ 1/20 ∧
    |((row.avgSaman : ℚ)) - avgSamanRaw (rows.filter (fun r => key r = row.key))| ≤ 1/2 ∧
    |((row.avgG : ℚ)) - avgGRaw (rows.filter (fun r => key r = row.key))| ≤ 1/2 := by
  obtain ⟨k, hk, rfl⟩ := List.mem_map.mp hrow
  simp only [aggRow]
  exact ⟨⟨_, rfl⟩, round1_close _, ⟨_, rfl⟩, round1_close _,
    roundHalfEven_close _, roundHalfEven_close _⟩

/-- C6 witness: the mean-payout bound on the concrete example group. -/
theorem c6_rounding_witness :
    |(((aggRow (0 : ℤ) exampleGroup).avgSaman : ℚ)) -
      avgSamanRaw (exampleGroup.filter
        (fun _ => (0 : ℤ) = (aggRow (0 : ℤ) exampleGroup).key))| ≤ 1/2 := by
  have hmem : aggRow (0 : ℤ) exampleGroup ∈
      calculate_metrics exampleGroup (fun _ => (0 : ℤ)) := by
    simp [calculate_metrics, exampleGroup]
  exact (c6_rounding exampleGroup (fun _ => (0 : ℤ)) _ hmem).2.2.2.2.1

/-- Python str.strip(): surrounding whitespace removed from both ends. -/
def pyStrip (s : String) : String :=
  String.mk (((s.data.dropWhile Char.isWhitespace).reverse.dropWhile
    Char.isWhitespace).reverse)

/-- The record at the first index attaining the maximum 日付, the semantics of
pandas groupby(...)["日付"].idxmax() within one group (app.py line 147). -/
def firstMaxByDate : List Record → Option Record
  | [] => none
  | a :: t =>
    match firstMaxByDate t with
    | none => some a
    | some m => if a.hizuke < m.hizuke then some m else some a

/-- Embeds latest_machine_map (app.py lines 141-150): for a cabinet number,
the model of the record at the first index attaining its most recent date in
the full unfiltered dataset; absent cabinets map to none (dict .get). -/
def latest_machine_map (rows : List Record) (n : ℤ) : Option String :=
  (firstMaxByDate (rows.filter (fun r => r.dai = n))).map (fun r => r.kishu)

/-- Embeds check_status (app.py lines 341-350): "🟢現役" (currently installed)
when the latest-model entry exists, is truthy (non-empty), and equals the
aggregate row's model after stripping surrounding whitespace; "💀撤去"
(removed) otherwise. -/
def check_status (latest : ℤ → Option String) (dai : ℤ) (kishu : String) : String :=
  match latest dai with
  | some cur => if cur ≠ "" ∧ pyStrip cur = pyStrip kishu then "🟢現役" else "💀撤去"
  | none => "💀撤去"

theorem firstMaxByDate_isSome (a : Record) (t : List Record) :
    (firstMaxByDate (a :: t)).isSome = true := by
  rw [firstMaxByDate]
  rcases firstMaxByDate t with _ | m
  · rfl
  · by_cases hlt : a.hizuke < m.hizuke <;> simp [hlt]

theorem firstMaxByDate_spec (l : List Record) (r : Record)
    (h : firstMaxByDate l = some r) :
    r ∈ l ∧ ∀ x ∈ l, x.hizuke ≤ r.hizuke := by
  induction l generalizing r with
  | nil => simp [firstMaxByDate] at h
  | cons a t ih =>
    rw [firstMaxByDate] at h
    rcases hm : firstMaxByDate t with _ | m
    · rw [hm] at h
      obtain rfl : a = r := by simpa using h
      cases t with
      | nil => exact ⟨by simp, by simp⟩
      | cons b u =>
        have hsome := firstMaxByDate_isSome b u
        rw [hm] at hsome
        simp at hsome
    · rw [hm] at h
      dsimp only at h
      obtain ⟨hmem, hmax⟩ := ih m hm
      by_cases hlt : a.hizuke < m.hizuke
      · rw [if_pos hlt] at h
        obtain rfl : m = r := by simpa using h
        refine ⟨List.mem_cons_of_mem _ hmem, ?_⟩
        intro x hx
        rcases List.mem_cons.mp hx with rfl | hxt
        · exact hlt.le
        · exact hmax x hxt
      · rw [if_neg hlt] at h
        obtain rfl : a = r := by simpa using h
        refine ⟨List.mem_cons_self _ _, ?_⟩
        intro x hx
        rcases List.mem_cons.mp hx with rfl | hxt
        · exact le_rfl
        · exact le_trans (hmax x hxt) (not_lt.mp hlt)

/-- C5 (amended): the latest-model map entry of a cabinet, when present, is
the model of one of that cabinet's records whose date is maximal over the
entire dataset the map was built from; and a cabinet/model pair is classified
"🟢現役" (currently installed) if and only if the map entry for the cabinet
exists, is non-empty, and equals the pair's model after stripping surrounding
whitespace — otherwise "💀撤去" (removed). -/
theorem c5_latest_model_status (rows : List Record) (n : ℤ) :
    (∀ m : String, latest_machine_map rows n = some m →
      ∃ r ∈ rows, r.dai = n ∧ r.kishu = m ∧
        ∀ x ∈ rows, x.dai = n → x.hizuke ≤ r.hizuke) ∧
    (∀ k : String,
      check_status (latest_machine_map rows) n k = "🟢現役" ↔
        ∃ m : String, latest_machine_map rows n = some m ∧ m ≠ "" ∧
          pyStrip m = pyStrip k) := by
  constructor
  · intro m hm
    rw [latest_machine_map] at hm
    rcases hf : firstMaxByDate (rows.filter (fun r => r.dai = n)) with _ | r0
    · rw [hf] at hm; simp at hm
    · rw [hf] at hm
      obtain rfl : r0.kishu = m := by simpa using hm
      obtain ⟨hmem, hmax⟩ := firstMaxByDate_spec _ _ hf
      have hrf := List.mem_filter.mp hmem
      refine ⟨r0, hrf.1, by simpa using hrf.2, rfl, ?_⟩
      intro x hx hxd
      exact hmax x (List.mem_filter.mpr ⟨hx, by simpa using hxd⟩)
  · intro k
    rw [check_status]
    cases hl : latest_machine_map rows n with
    | none =>
      dsimp only
      constructor
      · intro h; exact absurd h (by decide)
      · rintro ⟨m, hm, -, -⟩
        exact Option.noConfusion hm
    | some cur =>
      dsimp only
      constructor
      · intro h
        by_cases hc : cur ≠ "" ∧ pyStrip cur = pyStrip k
        · exact ⟨cur, rfl, hc.1, hc.2⟩
        · rw [if_neg hc] at h; exact absurd h (by decide)
      · rintro ⟨m, hm, hne, hstrip⟩
        obtain rfl : cur = m := Option.some.inj hm
        rw [if_pos ⟨hne, hstrip⟩]

/-- C5 counterexample rows: cabinet 1 held model "A" on day 1 and model "A "
(trailing space) on day 2 of the unfiltered dataset. -/
def c5Rows : List Record :=
  [⟨1, "A", 1, 1, 1, 0, 0⟩, ⟨1, "A ", 2, 1, 2, 0, 0⟩]

/-- C5 counterexample: the aggregate-row model "A" (from a date-filtered
subset) is classified currently installed even though it does not equal the
latest-model map entry "A " — check_status compares after stripping, so the
claim's plain-equality criterion fails. -/
theorem c5_counterexample :
    check_status (latest_machine_map c5Rows) 1 "A" = "🟢現役" ∧
    latest_machine_map c5Rows 1 ≠ some ("A") := by
  constructor
  · decide
  · decide

/-- C5 witness: the latest-model entry of cabinet 1 of the counterexample
dataset is a maximal-date record's model. -/
theorem c5_latest_model_status_witness :
    ∃ r ∈ c5Rows, r.dai = 1 ∧ r.kishu = "A " ∧
      ∀ x ∈ c5Rows, x.dai = 1 → x.hizuke ≤ r.hizuke :=
  (c5_latest_model_status c5Rows 1).1 ("A ") (by decide)

/-- Embeds the sidebar day-filter mask (app.py lines 237-239): start from an
all-False mask, or-in the day-ending-digit test when the selected-digit list
is non-empty (Python list truthiness), and or-in the is_Zorome test when the
checkbox is on. -/
def targetMask (targetEnds : List ℕ) (useZorome : Bool) (r : Record) : Bool :=
  let m := false
  let m := if targetEnds.isEmpty then m else m || decide (matsubi r ∈ targetEnds)
  let m := if useZorome then m || zoromeFlag r else m
  m

/-- Embeds the target_df selection (app.py lines 241-245): with no digit
selected and the checkbox off the whole dataset is kept, otherwise the rows
matching the mask. -/
def target_rows (targetEnds : List ℕ) (useZorome : Bool)
    (rows : List Record) : List Record :=
  if targetEnds.isEmpty ∧ useZorome = false then rows
  else rows.filter (targetMask targetEnds useZorome)

theorem targetMask_iff (targetEnds : List ℕ) (useZorome : Bool) (r : Record) :
    targetMask targetEnds useZorome r = true ↔
      (matsubi r ∈ targetEnds ∨ (useZorome = true ∧ zoromeFlag r = true)) := by
  cases useZorome <;> rcases targetEnds with _ | ⟨e, es⟩ <;>
    simp [targetMask]

/-- C10: with no day-ending digit selected and the repeating-date option off,
the analysis dataset is the whole (date-range-filtered) dataset; with at
least one option active, a row is kept exactly when its day-ending digit is
among the selected digits or the repeating-date option is on and its
is_Zorome flag is True. -/
theorem c10_day_filter (targetEnds : List ℕ) (useZorome : Bool)
    (rows : List Record) :
    (targetEnds = [] → useZorome = false →
      target_rows targetEnds useZorome rows = rows) ∧
    (targetEnds ≠ [] ∨ useZorome = true →
      ∀ r : Record, r ∈ target_rows targetEnds useZorome rows ↔
        (r ∈ rows ∧
          (matsubi r ∈ targetEnds ∨ (useZorome = true ∧ zoromeFlag r = true)))) := by
  constructor
  · rintro rfl rfl
    simp [target_rows]
  · intro hopt r
    have hcond : ¬ (targetEnds.isEmpty = true ∧ useZorome = false) := by
      rcases hopt with h | h
      · rintro ⟨h1, -⟩; exact h (List.isEmpty_iff.mp h1)
      · rintro ⟨-, h2⟩; rw [h] at h2; exact absurd h2 (by decide)
    rw [target_rows, if_neg hcond, List.mem_filter, targetMask_iff]

/-- C10 witness: the empty selection keeps the whole example dataset, and an
active selection keeps a matching row. -/
theorem c10_day_filter_witness :
    target_rows [] false exampleGroup = exampleGroup ∧
    (exampleGroup.head? = some (⟨1001, "A", 1, 1, 1, 0, 1000⟩ : Record) →
      ((⟨1001, "A", 1, 1, 1, 0, 1000⟩ : Record) ∈ target_rows [1] false exampleGroup ↔
        ((⟨1001, "A", 1, 1, 1, 0, 1000⟩ : Record) ∈ exampleGroup ∧
          (matsubi ⟨1001, "A", 1, 1, 1, 0, 1000⟩ ∈ [1] ∨
            (false = true ∧ zoromeFlag ⟨1001, "A", 1, 1, 1, 0, 1000⟩ = true))))) :=
  ⟨(c10_day_filter [] false exampleGroup).1 rfl rfl,
   fun _ => (c10_day_filter [1] false exampleGroup).2 (Or.inl (by simp)) _⟩

/-- One row of the coordinate table produced by load_map_coordinates
(app.py lines 111-132): cabinet number with its map X and Y. -/
structure Coord where
  dai : ℤ
  mapX : ℤ
  mapY : ℤ
deriving DecidableEq

/-- Embeds pd.merge(metrics_df, map_coords, on="台番号", how="inner")
(app.py line 459): all pairs of an aggregate row (keyed by cabinet number and
model) and a coordinate row sharing the cabinet number. -/
def mergeInnerOnDai (metrics : List (AggRow (ℤ × String)))
    (coords : List Coord) : List (AggRow (ℤ × String) × Coord) :=
  metrics.flatMap (fun m => (coords.filter (fun c => c.dai = m.key.1)).map (fun c => (m, c)))

/-- C3 (amended): the real-coordinate map renders exactly the cabinets present
in both the aggregate table and the coordinate table; a cabinet of the
coordinate table with no matching aggregate row is dropped by the inner join,
not given a no-data cell. -/
theorem c3_inner_join (metrics : List (AggRow (ℤ × String)))
    (coords : List Coord) (n : ℤ) :
    (∃ p ∈ mergeInnerOnDai metrics coords, p.1.key.1 = n) ↔
      ((∃ m ∈ metrics, m.key.1 = n) ∧ (∃ c ∈ coords, c.dai = n)) := by
  simp only [mergeInnerOnDai, List.mem_flatMap, List.mem_map, List.mem_filter,
    decide_eq_true_eq]
  constructor
  · rintro ⟨p, ⟨m, hm, ⟨c, ⟨hc, hcd⟩, rfl⟩⟩, hn⟩
    exact ⟨⟨m, hm, hn⟩, ⟨c, hc, by rw [hcd, hn]⟩⟩
  · rintro ⟨⟨m, hm, hmn⟩, ⟨c, hc, hcn⟩⟩
    exact ⟨(m, c), ⟨m, hm, ⟨c, ⟨hc, by rw [hcn, hmn]⟩, rfl⟩⟩, hmn⟩

/-- C3 counterexample metrics: an aggregate row for cabinet 1 only. -/
def c3Metrics : List (AggRow (ℤ × String)) :=
  [⟨(1, "A"), 1, 1, 300, 1000, 300, 1000, 100, 105⟩]

/-- C3 counterexample coordinates: cabinets 1 and 2 are both mapped. -/
def c3Coords : List Coord := [⟨1, 0, 0⟩, ⟨2, 1, 0⟩]

/-- C3 counterexample: cabinet 2 is present in the coordinate table but, with
no matching aggregate row, it appears nowhere in the inner-joined map data,
contradicting the claim that it still renders as a no-data cell. -/
theorem c3_counterexample :
    (∃ c ∈ c3Coords, c.dai = 2) ∧
    ¬ (∃ p ∈ mergeInnerOnDai c3Metrics c3Coords, p.1.key.1 = 2) := by
  constructor
  · decide
  · decide

/-- C3 witness: the characterization applied at cabinet 1, present on both
sides. -/
theorem c3_inner_join_witness :
    ∃ p ∈ mergeInnerOnDai c3Metrics c3Coords, p.1.key.1 = 1 :=
  (c3_inner_join c3Metrics c3Coords 1).mpr (by decide)

/-- The two rendering modes of tab5 (app.py lines 430-453): the explicit
"unavailable" warning plus labelled simple virtual map when no coordinate
table was loaded, and the real-coordinate map otherwise. -/
inductive MapRenderMode where
  | unavailableFallback : MapRenderMode
  | realCoord : MapRenderMode
deriving DecidableEq

/-- The dispatch of tab5 on the result of load_map_coordinates
(app.py line 430: if map_coords is None). -/
def tab5_mode : Option (List Coord) → MapRenderMode
  | none => MapRenderMode.unavailableFallback
  | some _ => MapRenderMode.realCoord

/-- sorted(map_metrics["台番号"].unique()) (app.py line 440): distinct cabinet
numbers in ascending order. -/
def uniqueSorted (l : List ℤ) : List ℤ :=
  l.dedup.insertionSort (fun a b => a ≤ b)

/-- machine_rank_map (app.py lines 441-442): the rank of a cabinet number in
the ascending list of distinct cabinet numbers. -/
def virtualRank (l : List ℤ) (n : ℤ) : ℕ := (uniqueSorted l).indexOf n

/-- Map_X and Map_Y of the fallback virtual map (app.py lines 443-444):
column rank mod cols_per_row, y-coordinate -(rank div cols_per_row). -/
def virtualPos (l : List ℤ) (colsPerRow : ℕ) (n : ℤ) : ℕ × ℤ :=
  (virtualRank l n % colsPerRow, -((virtualRank l n / colsPerRow : ℕ) : ℤ))

theorem indexOf_sorted_eq_countLt (L : List ℤ)
    (hs : L.Sorted (fun a b => a ≤ b)) (hn : L.Nodup) (x : ℤ) (hx : x ∈ L) :
    L.indexOf x = (L.filter (fun y => y < x)).length := by
  induction L with
  | nil => simp at hx
  | cons a t ih =>
    rw [List.sorted_cons] at hs
    rw [List.nodup_cons] at hn
    rcases List.mem_cons.mp hx with rfl | hxt
    · rw [List.indexOf_cons_self]
      have hfa : ¬ (x < x) := lt_irrefl x
      rw [List.filter_cons_of_neg (by simp)]
      have hfilter : t.filter (fun y => decide (y < x)) = [] := by
        rw [List.filter_eq_nil_iff]
        intro y hy
        have := hs.1 y hy
        simp
        omega
      rw [hfilter]
      rfl
    · have hax : a ≠ x := fun h => hn.1 (h ▸ hxt)
      have halt : a < x := lt_of_le_of_ne (hs.1 x hxt) hax
      rw [List.indexOf_cons_ne _ hax, List.filter_cons_of_pos (by simpa using halt),
        List.length_cons, ih hs.2 hn.2 hxt]

/-- C9: with no coordinate table the map tab is in its explicitly-signalled
fallback mode (and only then), and the fallback places the cabinet of rank r
in ascending cabinet-number order — r being the number of distinct cabinet
numbers smaller than it — at column r mod cols_per_row and at y-coordinate
-(r div cols_per_row), i.e. in row r div cols_per_row counting downwards. -/
theorem c9_virtual_fallback (coordsOpt : Option (List Coord)) (l : List ℤ)
    (colsPerRow : ℕ) (n : ℤ) (hn : n ∈ l) :
    (tab5_mode coordsOpt = MapRenderMode.unavailableFallback ↔ coordsOpt = none) ∧
    virtualRank l n = (l.dedup.filter (fun m => m < n)).length ∧
    virtualPos l colsPerRow n =
      ((l.dedup.filter (fun m => m < n)).length % colsPerRow,
        -((((l.dedup.filter (fun m => m < n)).length / colsPerRow : ℕ)) : ℤ)) := by
  have hsorted : (uniqueSorted l).Sorted (fun a b => a ≤ b) :=
    List.sorted_insertionSort _ _
  have hperm : List.Perm (uniqueSorted l) l.dedup := List.perm_insertionSort _ _
  have hnodup : (uniqueSorted l).Nodup := (hperm.nodup_iff).mpr l.nodup_dedup
  have hmem : n ∈ uniqueSorted l := hperm.mem_iff.mpr (List.mem_dedup.mpr hn)
  have hrank : virtualRank l n = (l.dedup.filter (fun m => m < n)).length := by
    rw [virtualRank, indexOf_sorted_eq_countLt _ hsorted hnodup _ hmem]
    exact (hperm.filter _).length_eq
  refine ⟨?_, hrank, ?_⟩
  · cases coordsOpt <;> simp [tab5_mode]
  · rw [virtualPos, hrank]

/-- C9 witness: the placement rule at cabinet 2 of the set with distinct
cabinet numbers 3, 1, 2 and two cabinets per row. -/
theorem c9_virtual_fallback_witness :
    virtualPos [3, 1, 2] 2 2 =
      (((([3, 1, 2] : List ℤ).dedup.filter (fun m => m < 2)).length % 2),
        -((((([3, 1, 2] : List ℤ).dedup.filter (fun m => m < 2)).length / 2 : ℕ)) : ℤ)) :=
  (c9_virtual_fallback none [3, 1, 2] 2 2 (by decide)).2.2
